import Mathlib

/-
  Verification development for the SERENA-UNZIP task-orchestration bot.

  Shallow embedding of the relevant parts of the source:
    - src/utils/link_parser.py   (URL scanning and classification)
    - src/database.py            (temp-resource registry and sweep)
    - src/bot.py                 (per-user slot, cancellation flag,
                                  batch download pipeline)
    - src/utils/progress.py      (progress computation)

  Text is modelled as a list of characters; Python string operations are
  translated into functions over such lists.
-/

abbrev Str := List Char

/-- Python str.lower, character by character (adequate for ASCII input). -/
def lowerStr (s : Str) : Str := s.map Char.toLower

/-- Python str.strip with no argument: remove whitespace from both ends. -/
def stripWS (s : Str) : Str :=
  ((s.dropWhile Char.isWhitespace).reverse.dropWhile Char.isWhitespace).reverse

/-- Python str.strip(cs): remove characters of cs from both ends. -/
def stripChars (cs : Str) (s : Str) : Str :=
  ((s.dropWhile (fun c => cs.contains c)).reverse.dropWhile (fun c => cs.contains c)).reverse

/-- Python s.split(sep, 1)[0] for a one-character separator: the prefix of s
before the first occurrence of c (all of s when c does not occur). -/
def splitBefore (c : Char) (s : Str) : Str := s.takeWhile (fun x => x ≠ c)

/-- base = u.split("?", 1)[0].split("#", 1)[0] from classify_link. -/
def stripQF (s : Str) : Str := splitBefore '#' (splitBefore '?' s)

/-- Python substring membership test: pat in s. -/
def containsSeq (pat s : Str) : Bool :=
  (List.range (s.length + 1)).any (fun i => pat.isPrefixOf (s.drop i))

-- extension tables from src/utils/link_parser.py

def VIDEO_EXT : List Str :=
  [".mp4", ".mkv", ".mov", ".avi", ".webm", ".ts"].map String.toList

def ARCHIVE_EXT : List Str :=
  [".zip", ".rar", ".7z", ".tar", ".gz", ".tgz", ".tar.gz", ".tar.bz2", ".tbz2",
   ".bz2", ".xz"].map String.toList

def AUDIO_EXT : List Str :=
  [".mp3", ".m4a", ".aac", ".ogg", ".opus", ".flac", ".wav"].map String.toList

def APK_EXT : List Str :=
  [".apk", ".xapk", ".apks"].map String.toList

/-- FILE_EXT = VIDEO_EXT | ARCHIVE_EXT | AUDIO_EXT | APK_EXT.
The source iterates over this Python set; only membership matters. -/
def FILE_EXT : List Str := VIDEO_EXT ++ ARCHIVE_EXT ++ AUDIO_EXT ++ APK_EXT

/-- The five category strings returned by classify_link. -/
inductive Kind
  | gdrive
  | telegram
  | m3u8
  | direct
  | unknown
  deriving DecidableEq, Repr

/-- classify_link from src/utils/link_parser.py (lines 32-54). -/
def classify_link (url : Str) : Kind :=
  let u := stripWS url
  let u_low := lowerStr u
  if containsSeq "drive.google.com".toList u_low then .gdrive
  else if containsSeq "t.me/".toList u_low || containsSeq "telegram.me/".toList u_low then
    .telegram
  else
    let base := stripQF u_low
    if List.isSuffixOf ".m3u8".toList base then .m3u8
    else if FILE_EXT.any (fun ext => List.isSuffixOf ext base) then .direct
    else .unknown

-- URL_REGEX = (https?://[^\s]+), scanned left-to-right, non-overlapping.

/-- After the literal scheme prefix of length k has matched, the regex
requires one or more non-whitespace characters, taken greedily. Returns the
whole match (original characters) and the remainder of the input. -/
def matchAfterScheme (k : Nat) (s : Str) : Option (Str × Str) :=
  let pre := s.take k
  let rest := s.drop k
  let body := rest.takeWhile (fun c => ¬ c.isWhitespace)
  let rest2 := rest.dropWhile (fun c => ¬ c.isWhitespace)
  if body.isEmpty then none else some (pre ++ body, rest2)

/-- Try to match URL_REGEX at the start of s (case-insensitive scheme). -/
def tryMatchURL (s : Str) : Option (Str × Str) :=
  if lowerStr (s.take 8) = "https://".toList then matchAfterScheme 8 s
  else if lowerStr (s.take 7) = "http://".toList then matchAfterScheme 7 s
  else none

/-- re.finditer scan: at each position try to match; on a match emit it and
resume after the matched text, otherwise advance one character. Fuel-indexed
for structural recursion; fuel = length of the input always suffices because
every step consumes at least one character. -/
def scanURLsFuel : Nat → Str → List Str
  | 0, _ => []
  | _ + 1, [] => []
  | fuel + 1, c :: rest =>
    match tryMatchURL (c :: rest) with
    | some (m, rest2) => m :: scanURLsFuel fuel rest2
    | none => scanURLsFuel fuel rest

def scanURLs (s : Str) : List Str := scanURLsFuel s.length s

/-- m.group(1).strip().strip(".,)") applied to one match. -/
def cleanURL (m : Str) : Str := stripChars ".,)".toList (stripWS m)

/-- find_links_in_text from src/utils/link_parser.py (lines 28-29):
every regex match, post-processed; no deduplication. -/
def find_links_in_text (text : Str) : List Str := (scanURLs text).map cleanURL

-- ---------- extract_links_from_folder (src/utils/link_parser.py 57-88) ----------

/-- One readable file reached by the os.walk traversal, in walk order.
name is the final path component. -/
structure FSFile where
  name : Str
  content : Str

/-- pathlib Path(...).suffix: the extension of the final component including
the dot, empty when there is no dot after the first character. -/
def pathSuffix (n : Str) : Str :=
  if (n.drop 1).contains '.' then
    '.' :: (n.reverse.takeWhile (fun c => c ≠ '.')).reverse
  else []

def ELIGIBLE_EXT : List Str := [".txt", ".m3u", ".m3u8"].map String.toList

/-- ext = p.suffix.lower(); ext in {".txt", ".m3u", ".m3u8"}. -/
def eligibleFile (f : FSFile) : Bool :=
  ELIGIBLE_EXT.contains (lowerStr (pathSuffix f.name))

/-- Inner loop body: kind = classify_link(url);
if url not in all_links[kind]: all_links[kind].append(url). -/
def addUrl (m : Kind → List Str) (url : Str) : Kind → List Str :=
  let k := classify_link url
  if url ∈ m k then m
  else fun k2 => if k2 = k then m k ++ [url] else m k2

/-- Per-file step: skip non-eligible files, otherwise fold every found link
into the category map. -/
def scanFileUrls (m : Kind → List Str) (f : FSFile) : Kind → List Str :=
  if eligibleFile f then (find_links_in_text f.content).foldl addUrl m else m

/-- extract_links_from_folder: walk all files, starting from the empty map
(the dict is pre-initialized with all five categories). -/
def extract_links_from_folder (files : List FSFile) : Kind → List Str :=
  files.foldl scanFileUrls (fun _ => [])

-- ---------- temp-path registry and sweep (src/database.py 102-126) ----------

/-- One document of the temp_files collection. Time is in seconds. -/
structure TempRecord where
  user_id : Int
  path : Str
  created_at : Int
  ttl_min : Int
  deriving DecidableEq

/-- created + datetime.timedelta(minutes=ttl_min) <= now. -/
def expiredRec (now : Int) (r : TempRecord) : Bool :=
  decide (r.created_at + 60 * r.ttl_min ≤ now)

/-- register_temp_path: insert one document with created_at = call time. -/
def register_temp_path (db : List TempRecord) (uid : Int) (p : Str)
    (ttl : Int) (now : Int) : List TempRecord :=
  db ++ [{ user_id := uid, path := p, created_at := now, ttl_min := ttl }]

/-- get_expired_temp_paths(now): collect the paths of all expired documents,
delete exactly those documents, return the paths. First component: returned
expired paths in scan order; second: the surviving collection. -/
def get_expired_temp_paths (db : List TempRecord) (now : Int) :
    List Str × List TempRecord :=
  ((db.filter (expiredRec now)).map TempRecord.path,
   db.filter (fun r => ¬ expiredRec now r))

-- ---------- per-user slot and cancellation flag (src/bot.py) ----------

/-- The observable per-user state: user_locks[u].locked() and
user_cancelled[u]. Both dictionaries default to an unlocked, uncancelled
slot for users never seen. -/
structure Slot where
  locked : Bool
  cancelled : Bool
  deriving DecidableEq

def initSlot : Slot := ⟨false, false⟩

abbrev SlotMap := Int → Slot

def setSlot (s : SlotMap) (u : Int) (v : Slot) : SlotMap :=
  fun x => if x = u then v else s x

/-- The three operations that touch the slot of a user.
tryBegin: entry of run_unzip_task (bot.py 1224-1233) — the busy check on
lock.locked(), the lock acquisition, and user_cancelled[user_id] = False;
the check and the acquisition are not separated by a suspension point.
endTask: exit of the async-with block — the lock release; nothing in
run_unzip_task resets the cancellation flag on exit.
requestCancel: cancel_cmd (bot.py 641-648) — user_cancelled[uid] = True. -/
inductive TaskOp
  | tryBegin (u : Int)
  | endTask (u : Int)
  | requestCancel (u : Int)
  deriving DecidableEq

def stepOp (s : SlotMap) : TaskOp → SlotMap
  | .tryBegin u => if (s u).locked then s else setSlot s u ⟨true, false⟩
  | .endTask u => setSlot s u ⟨false, (s u).cancelled⟩
  | .requestCancel u => setSlot s u ⟨(s u).locked, true⟩

def runOps (s : SlotMap) (ops : List TaskOp) : SlotMap := ops.foldl stepOp s

/-- Whether a try_begin issued in state s is granted (otherwise the user is
answered with the busy message and nothing changes). -/
def tryBeginGranted (s : SlotMap) (u : Int) : Bool := ! (s u).locked

-- ---------- batch download pipeline (src/bot.py 1639-1868) ----------

/-- One processed batch item, tagged by which loop handled it. -/
inductive BatchItem
  | direct (url : Str)
  | gdrive (url : Str)
  | m3u8 (url : Str)
  deriving DecidableEq

/-- Pipeline state: the ok / fail counters, the number of reads of the
user_cancelled flag performed so far, and the items processed in order. -/
structure BatchSt where
  ok : Nat
  fail : Nat
  reads : Nat
  trace : List BatchItem
  deriving DecidableEq

/-- categorize loop (bot.py 1658-1661): append each link to the bucket of
its classification, in order. -/
def categorize (links : List Str) : Kind → List Str :=
  links.foldl
    (fun m url => fun k => if k = classify_link url then m k ++ [url] else m k)
    (fun _ => [])

/-- Loop over candidate_direct (bot.py 1714-1775): before each item read the
cancellation flag (break when set); otherwise attempt the download and
upload of this one item inside try/except — any failure increments fail,
success increments ok, and either way the loop continues with the rest.
cancel gives the flag value at each successive read; fetch is the success
oracle for the download-and-send of one item. -/
def phaseDirect (cancel : Nat → Bool) (fetch : Str → Bool) :
    List Str → BatchSt → BatchSt
  | [], st => st
  | url :: rest, st =>
    if cancel st.reads then { st with reads := st.reads + 1 }
    else
      phaseDirect cancel fetch rest
        (if fetch url then
          { st with ok := st.ok + 1, reads := st.reads + 1,
                    trace := st.trace ++ [.direct url] }
        else
          { st with fail := st.fail + 1, reads := st.reads + 1,
                    trace := st.trace ++ [.direct url] })

/-- Loop over gdrive_links (bot.py 1778-1842): flag read, then
get_gdrive_direct_link; a link that cannot be rewritten counts as a failure
without a network call (continue); otherwise the fetch is attempted like a
direct item. -/
def phaseGdrive (cancel : Nat → Bool) (fetch : Str → Bool)
    (rewrite : Str → Option Str) : List Str → BatchSt → BatchSt
  | [], st => st
  | url :: rest, st =>
    if cancel st.reads then { st with reads := st.reads + 1 }
    else
      phaseGdrive cancel fetch rewrite rest
        (match rewrite url with
        | none =>
          { st with fail := st.fail + 1, reads := st.reads + 1,
                    trace := st.trace ++ [.gdrive url] }
        | some d =>
          if fetch d then
            { st with ok := st.ok + 1, reads := st.reads + 1,
                      trace := st.trace ++ [.gdrive url] }
          else
            { st with fail := st.fail + 1, reads := st.reads + 1,
                      trace := st.trace ++ [.gdrive url] })

/-- Loop over m3u8_links (bot.py 1845-1848): flag read, then a quality menu
is offered; the counters are untouched. -/
def phaseM3u8 (cancel : Nat → Bool) : List Str → BatchSt → BatchSt
  | [], st => st
  | url :: rest, st =>
    if cancel st.reads then { st with reads := st.reads + 1 }
    else
      phaseM3u8 cancel rest
        { st with reads := st.reads + 1, trace := st.trace ++ [.m3u8 url] }

/-- handle_links_download_all, reduced to its counter / ordering skeleton:
categorize the links, set candidate_direct = direct + unknown, run the
direct/unknown loop first, then the gdrive loop, then the m3u8 loop. -/
def handle_links_download_all (cancel : Nat → Bool) (fetch : Str → Bool)
    (rewrite : Str → Option Str) (all_links : List Str) : BatchSt :=
  let cats := categorize all_links
  let candidate_direct := cats .direct ++ cats .unknown
  let st1 := phaseDirect cancel fetch candidate_direct ⟨0, 0, 0, []⟩
  let st2 := phaseGdrive cancel fetch rewrite (cats .gdrive) st1
  phaseM3u8 cancel (cats .m3u8) st2

-- ---------- progress computation (src/utils/progress.py 53-60) ----------

/-- Python int() applied to a rational: truncation toward zero. -/
def pyTrunc (x : ℚ) : Int := if 0 ≤ x then Int.floor x else Int.ceil x

structure ProgressOut where
  percent : ℚ
  speed : ℚ
  eta : Int

/-- The percent / speed / eta computation of progress_for_pyrogram:
percent = 0 when total == 0 else current * 100 / total;
elapsed = now - start_time; speed = current / elapsed if elapsed > 0 else 0;
eta = int((total - current) / speed) if speed > 0 else 0. -/
def progressCompute (current total : Int) (now start_time : ℚ) : ProgressOut :=
  let percent : ℚ := if total = 0 then 0 else (current : ℚ) * 100 / (total : ℚ)
  let elapsed : ℚ := now - start_time
  let speed : ℚ := if 0 < elapsed then (current : ℚ) / elapsed else 0
  let eta : Int := if 0 < speed then pyTrunc (((total : ℚ) - (current : ℚ)) / speed) else 0
  ⟨percent, speed, eta⟩

-- ---------- spec-side definitions for refinement comparison ----------

/-- Modelled from the spec (section 4.3): the host of a URL — the authority
component after the scheme separator and before the first slash, question
mark or hash. Used only to compare the host-based classification wording
of the spec with classify_link. -/
def specHost (u : Str) : Str :=
  let rec afterSep : Str → Str
    | [] => []
    | ':' :: '/' :: '/' :: rest => rest
    | _ :: rest => afterSep rest
  (afterSep u).takeWhile (fun c => c != '/' && c != '?' && c != '#')

/-- Modelled from the spec (sections 4.5 and 5): the processing order the
spec prescribes for one batch invocation — cloud_drive-resolved fetches
first, then direct/unknown candidates, then streaming manifests. -/
def specBatchOrder (links : List Str) : List BatchItem :=
  let cats := categorize links
  (cats .gdrive).map .gdrive
    ++ ((cats .direct ++ cats .unknown)).map .direct
    ++ (cats .m3u8).map .m3u8


-- helper: the lock stays held across any operations that do not end this user

theorem locked_preserved (u : Int) :
    ∀ (ops : List TaskOp) (s : SlotMap),
      (∀ op ∈ ops, op ≠ TaskOp.endTask u) → (s u).locked = true →
      ((runOps s ops) u).locked = true := by
  intro ops
  induction ops with
  | nil => intro s _ h; simpa [runOps] using h
  | cons op rest ih =>
    intro s hops h
    have hop : op ≠ TaskOp.endTask u := hops op (List.mem_cons_self _ _)
    have hrest : ∀ o ∈ rest, o ≠ TaskOp.endTask u :=
      fun o ho => hops o (List.mem_cons_of_mem _ ho)
    have hstep : ((stepOp s op) u).locked = true := by
      cases op with
      | tryBegin v =>
        simp only [stepOp]
        split
        · exact h
        · by_cases hv : u = v
          · subst hv; simp [setSlot]
          · simpa [setSlot, hv] using h
      | endTask v =>
        have hv : v ≠ u := by intro hvu; exact hop (by rw [hvu])
        simpa [stepOp, setSlot, Ne.symm hv] using h
      | requestCancel v =>
        by_cases hv : u = v
        · subst hv; simpa [stepOp, setSlot] using h
        · simpa [stepOp, setSlot, hv] using h
    have : runOps s (op :: rest) = runOps (stepOp s op) rest := rfl
    rw [this]
    exact ih (stepOp s op) hrest hstep

/-- C1: single-flight per user. If a try_begin for user u is granted, then
for any sequence of further operations containing no end for u, a second
try_begin for u observes the lock held, is answered busy, and leaves the
state unchanged (no queueing) — the two never both proceed. -/
theorem c1_single_flight (s : SlotMap) (u : Int) (mid : List TaskOp)
    (hgrant : tryBeginGranted s u = true)
    (hnoend : ∀ op ∈ mid, op ≠ TaskOp.endTask u) :
    tryBeginGranted (runOps (stepOp s (.tryBegin u)) mid) u = false ∧
    stepOp (runOps (stepOp s (.tryBegin u)) mid) (.tryBegin u)
      = runOps (stepOp s (.tryBegin u)) mid := by
  have hs : (s u).locked = false := by
    simpa [tryBeginGranted] using hgrant
  have h0 : ((stepOp s (.tryBegin u)) u).locked = true := by
    simp [stepOp, hs, setSlot]
  have hl := locked_preserved u mid _ hnoend h0
  constructor
  · simp [tryBeginGranted, hl]
  · generalize hX : runOps (stepOp s (.tryBegin u)) mid = X at hl ⊢
    simp [stepOp, hl]

theorem c1_single_flight_witness :
    tryBeginGranted
      (runOps (stepOp (fun _ => initSlot) (.tryBegin 5))
        [TaskOp.requestCancel 5, TaskOp.tryBegin 8]) 5 = false :=
  (c1_single_flight (fun _ => initSlot) 5 [TaskOp.requestCancel 5, TaskOp.tryBegin 8]
    (by decide) (by decide)).1

/-- C5 counterexample: a task that is granted, then cancelled, then ends,
leaves the lock released but the cancellation flag still set — so the
claim that every exit clears the flag fails on this trace. -/
theorem c5_counterexample :
    (runOps (fun _ => initSlot)
        [TaskOp.tryBegin 7, TaskOp.requestCancel 7, TaskOp.endTask 7] 7).locked = false ∧
    (runOps (fun _ => initSlot)
        [TaskOp.tryBegin 7, TaskOp.requestCancel 7, TaskOp.endTask 7] 7).cancelled = true := by
  decide

/-- C5 amended: ending a task always releases the lock of the user, and the
cancellation flag, though not cleared on exit, is reset when the next
task is granted, so no exit path leaves the slot locked and no new task
starts with a stale cancellation flag. -/
theorem c5_amended (s : SlotMap) (u : Int) :
    ((stepOp s (.endTask u)) u).locked = false ∧
    ((s u).locked = false →
      ((stepOp s (.tryBegin u)) u).locked = true ∧
      ((stepOp s (.tryBegin u)) u).cancelled = false) := by
  constructor
  · simp [stepOp, setSlot]
  · intro h; simp [stepOp, h, setSlot]

theorem c5_amended_witness :
    ((stepOp (fun _ => initSlot) (.endTask 3) 3).locked = false) ∧
    ((stepOp (fun _ => initSlot) (.tryBegin 3) 3).locked = true) := by
  have h := c5_amended (fun _ => initSlot) 3
  exact ⟨h.1, (h.2 rfl).1⟩

/-- C2: TTL correctness of the sweeper. A record registered at t0 with the
given ttl is expired exactly when t0 + ttl is at or before now; a sweep
strictly before that instant keeps the record and does not select it for
deletion, and a sweep at or after it deletes the record and returns its
path for subtree removal. -/
theorem c2_ttl_correctness (db : List TempRecord) (uid : Int) (p : Str)
    (ttl t0 now : Int) :
    let db2 := register_temp_path db uid p ttl t0
    let r : TempRecord := ⟨uid, p, t0, ttl⟩
    (expiredRec now r = true ↔ t0 + 60 * ttl ≤ now) ∧
    (now < t0 + 60 * ttl →
      r ∈ (get_expired_temp_paths db2 now).2 ∧ r ∉ db2.filter (expiredRec now)) ∧
    (t0 + 60 * ttl ≤ now →
      r ∉ (get_expired_temp_paths db2 now).2 ∧ p ∈ (get_expired_temp_paths db2 now).1) := by
  intro db2 r
  have hmem : r ∈ db2 := by simp [db2, register_temp_path, r]
  refine ⟨by simp [expiredRec, r], ?_, ?_⟩
  · intro h
    have hne : expiredRec now r = false := by
      simp [expiredRec, r]; omega
    constructor
    · simp only [get_expired_temp_paths]
      exact List.mem_filter.mpr ⟨hmem, by simp [hne]⟩
    · intro hr
      have := (List.mem_filter.mp hr).2
      rw [hne] at this
      exact Bool.false_ne_true this
  · intro h
    have hex : expiredRec now r = true := by
      simp [expiredRec, r]; omega
    constructor
    · intro hr
      simp only [get_expired_temp_paths] at hr
      have := (List.mem_filter.mp hr).2
      rw [hex] at this
      simp at this
    · simp only [get_expired_temp_paths]
      exact List.mem_map.mpr ⟨r, List.mem_filter.mpr ⟨hmem, hex⟩, rfl⟩

theorem c2_ttl_correctness_witness :
    (⟨1, "/tmp/x".toList, 0, 1⟩ : TempRecord) ∈
        (get_expired_temp_paths (register_temp_path [] 1 "/tmp/x".toList 1 0) 30).2 ∧
    "/tmp/x".toList ∈ (get_expired_temp_paths (register_temp_path [] 1 "/tmp/x".toList 1 0) 61).1 := by
  have h30 := c2_ttl_correctness [] 1 "/tmp/x".toList 1 0 30
  have h61 := c2_ttl_correctness [] 1 "/tmp/x".toList 1 0 61
  exact ⟨(h30.2.1 (by decide)).1, (h61.2.2 (by decide)).2⟩

/-- C8: sweep idempotence. Running the sweep twice in succession with no
intervening registrations yields an empty expired set the second time and
leaves the surviving records unchanged — the second sweep is a no-op. -/
theorem c8_sweep_idempotent (db : List TempRecord) (now : Int) :
    (get_expired_temp_paths (get_expired_temp_paths db now).2 now).1 = [] ∧
    (get_expired_temp_paths (get_expired_temp_paths db now).2 now).2
      = (get_expired_temp_paths db now).2 := by
  constructor
  · simp only [get_expired_temp_paths, List.filter_filter]
    rw [List.map_eq_nil_iff]
    apply List.filter_eq_nil_iff.mpr
    intro a _
    cases h : expiredRec now a <;> simp [h]
  · simp only [get_expired_temp_paths, List.filter_filter]
    apply List.filter_congr
    intro a _
    cases h : expiredRec now a <;> simp [h]

/-- C10: the progress computation is total and never divides by zero:
with non-negative current and total, percent is 0 when total is 0,
speed is 0 when elapsed is not positive, eta is 0 when speed is 0, and
percent and speed are the guarded quotients otherwise, never negative. -/
theorem c10_progress_total (current total : Int) (now start_time : ℚ)
    (hc : 0 ≤ current) (ht : 0 ≤ total) :
    (total = 0 → (progressCompute current total now start_time).percent = 0) ∧
    (now - start_time ≤ 0 → (progressCompute current total now start_time).speed = 0) ∧
    ((progressCompute current total now start_time).speed = 0 →
      (progressCompute current total now start_time).eta = 0) ∧
    (total ≠ 0 →
      (progressCompute current total now start_time).percent
        = (current : ℚ) * 100 / (total : ℚ)) ∧
    0 ≤ (progressCompute current total now start_time).speed ∧
    0 ≤ (progressCompute current total now start_time).percent := by
  refine ⟨?_, ?_, ?_, ?_, ?_, ?_⟩
  · intro h; simp [progressCompute, h]
  · intro h
    simp only [progressCompute]
    rw [if_neg]
    intro hlt
    linarith
  · intro h
    simp only [progressCompute] at h ⊢
    rw [if_neg]
    rw [h]
    exact lt_irrefl 0
  · intro h; simp [progressCompute, h]
  · simp only [progressCompute]
    split
    · next hp =>
      apply div_nonneg
      · exact_mod_cast hc
      · linarith
    · exact le_refl 0
  · simp only [progressCompute]
    split
    · exact le_refl 0
    · apply div_nonneg
      · positivity
      · exact_mod_cast ht

theorem c10_progress_total_witness :
    (progressCompute 0 0 1 0).percent = 0 ∧ (progressCompute 5 10 0 0).speed = 0 :=
  ⟨(c10_progress_total 0 0 1 0 (by norm_num) (by norm_num)).1 rfl,
   (c10_progress_total 5 10 0 0 (by norm_num) (by norm_num)).2.1 (by norm_num)⟩

def c6url : Str := "https://evil.example/drive.google.com".toList

/-- C6 counterexample: a URL whose host is evil.example but whose path
contains drive.google.com is classified cloud_drive although its host
does not contain the cloud-drive domain — the host-based reading of the
claim fails on this input. -/
theorem c6_counterexample :
    classify_link c6url = Kind.gdrive ∧
    containsSeq "drive.google.com".toList (lowerStr (specHost c6url)) = false := by
  decide

/-- C6 amended: classification precedence works by substring containment
over the whole lowercased URL, not the host: cloud_drive exactly when the
URL contains the drive domain anywhere, platform_internal exactly when it
instead contains a telegram domain pattern, then the m3u8 / extension
suffix checks on the whole URL with query and fragment stripped, in the
stated precedence order. -/
theorem c6_amended (u : Str) :
    (classify_link u = Kind.gdrive ↔
      containsSeq "drive.google.com".toList (lowerStr (stripWS u)) = true) ∧
    (classify_link u = Kind.telegram ↔
      (containsSeq "drive.google.com".toList (lowerStr (stripWS u)) = false ∧
       (containsSeq "t.me/".toList (lowerStr (stripWS u))
          || containsSeq "telegram.me/".toList (lowerStr (stripWS u))) = true)) ∧
    (classify_link u = Kind.m3u8 ↔
      (containsSeq "drive.google.com".toList (lowerStr (stripWS u)) = false ∧
       (containsSeq "t.me/".toList (lowerStr (stripWS u))
          || containsSeq "telegram.me/".toList (lowerStr (stripWS u))) = false ∧
       List.isSuffixOf ".m3u8".toList (stripQF (lowerStr (stripWS u))) = true)) ∧
    (classify_link u = Kind.direct ↔
      (containsSeq "drive.google.com".toList (lowerStr (stripWS u)) = false ∧
       (containsSeq "t.me/".toList (lowerStr (stripWS u))
          || containsSeq "telegram.me/".toList (lowerStr (stripWS u))) = false ∧
       List.isSuffixOf ".m3u8".toList (stripQF (lowerStr (stripWS u))) = false ∧
       FILE_EXT.any
         (fun ext => List.isSuffixOf ext (stripQF (lowerStr (stripWS u)))) = true)) := by
  simp only [classify_link]
  cases h1 : containsSeq "drive.google.com".toList (lowerStr (stripWS u)) <;>
    cases h2 : (containsSeq "t.me/".toList (lowerStr (stripWS u))
        || containsSeq "telegram.me/".toList (lowerStr (stripWS u))) <;>
    cases h3 : List.isSuffixOf ".m3u8".toList (stripQF (lowerStr (stripWS u))) <;>
    cases h4 : FILE_EXT.any
        (fun ext => List.isSuffixOf ext (stripQF (lowerStr (stripWS u)))) <;>
    simp [h1, h2, h3, h4]

/-- C7: classification totality. classify_link yields one of the five
categories for every string produced by find_links_in_text, and a URL
whose query/fragment-stripped lowercased form ends in a known extension
is never classified unknown. -/
theorem c7_classification_totality :
    (∀ (t : Str), ∀ u ∈ find_links_in_text t,
      classify_link u = Kind.gdrive ∨ classify_link u = Kind.telegram ∨
      classify_link u = Kind.m3u8 ∨ classify_link u = Kind.direct ∨
      classify_link u = Kind.unknown) ∧
    (∀ (u ext : Str), ext ∈ FILE_EXT →
      List.isSuffixOf ext (stripQF (lowerStr (stripWS u))) = true →
      classify_link u ≠ Kind.unknown) := by
  constructor
  · intro t u _
    cases h : classify_link u <;> simp
  · intro u ext hext hsuf
    simp only [classify_link]
    split_ifs with h1 h2 h3 h4 <;> try simp
    exact absurd (List.any_eq_true.mpr ⟨ext, hext, hsuf⟩) h4

theorem c7_classification_totality_witness :
    classify_link "https://host.example/v.mp4".toList ≠ Kind.unknown :=
  c7_classification_totality.2 "https://host.example/v.mp4".toList ".mp4".toList
    (by decide) (by decide)

-- first-seen-order deduplication, as performed by the bucket-append loop

def fdInsert (acc : List Str) (x : Str) : List Str :=
  if x ∈ acc then acc else acc ++ [x]

def firstDedup (l : List Str) : List Str := l.foldl fdInsert []

/-- The scan sequence: all links found in eligible files, in walk order. -/
def folderUrls (files : List FSFile) : List Str :=
  (files.filter eligibleFile).flatMap (fun f => find_links_in_text f.content)

theorem addUrl_apply (m : Kind → List Str) (url : Str) (k : Kind) :
    addUrl m url k = if classify_link url = k then fdInsert (m k) url else m k := by
  unfold addUrl fdInsert
  by_cases hk : classify_link url = k
  · subst hk
    by_cases hm : url ∈ m (classify_link url) <;> simp [hm]
  · by_cases hm : url ∈ m (classify_link url) <;> simp [hm, hk, Ne.symm hk]

theorem foldl_addUrl (k : Kind) :
    ∀ (urls : List Str) (m : Kind → List Str),
      (urls.foldl addUrl m) k
        = (urls.filter (fun u => classify_link u == k)).foldl fdInsert (m k) := by
  intro urls
  induction urls with
  | nil => intro m; rfl
  | cons url rest ih =>
    intro m
    by_cases hk : classify_link url = k
    · simp only [List.foldl_cons, List.filter_cons, hk]
      rw [ih (addUrl m url)]
      simp [addUrl_apply, hk]
    · simp only [List.foldl_cons, List.filter_cons]
      rw [ih (addUrl m url)]
      simp [addUrl_apply, hk]

theorem foldl_scanFileUrls (k : Kind) :
    ∀ (files : List FSFile) (m : Kind → List Str),
      (files.foldl scanFileUrls m) k
        = ((folderUrls files).filter (fun u => classify_link u == k)).foldl
            fdInsert (m k) := by
  intro files
  induction files with
  | nil => intro m; rfl
  | cons f rest ih =>
    intro m
    by_cases he : eligibleFile f
    · simp only [List.foldl_cons, folderUrls, List.filter_cons, he, if_pos,
        List.flatMap_cons]
      rw [ih, List.filter_append, List.foldl_append]
      simp [scanFileUrls, he, foldl_addUrl, folderUrls]
    · simp only [List.foldl_cons, folderUrls, List.filter_cons, he]
      rw [ih]
      simp [scanFileUrls, he, folderUrls]

theorem nodup_foldl_fdInsert :
    ∀ (l : List Str) (acc : List Str), acc.Nodup → (l.foldl fdInsert acc).Nodup := by
  intro l
  induction l with
  | nil => intro acc h; simpa using h
  | cons x rest ih =>
    intro acc h
    simp only [List.foldl_cons]
    apply ih
    unfold fdInsert
    by_cases hx : x ∈ acc
    · simpa [hx] using h
    · simp [hx, List.nodup_append, h]

/-- C9: deduplication asymmetry. The per-category map built from an
extracted tree keeps each URL at most once per category, equal to the
first-seen-order dedup of the scanned link sequence; find_links_in_text
applies no deduplication — it maps over every match, preserving length,
multiplicity and order, as the duplicate example shows. -/
theorem c9_dedup_asymmetry :
    (∀ (files : List FSFile) (k : Kind),
      extract_links_from_folder files k
        = firstDedup ((folderUrls files).filter (fun u => classify_link u == k)) ∧
      (extract_links_from_folder files k).Nodup) ∧
    (∀ t : Str, find_links_in_text t = (scanURLs t).map cleanURL ∧
      (find_links_in_text t).length = (scanURLs t).length) ∧
    (∀ (t url : Str),
      (find_links_in_text t).count url
        = (scanURLs t).countP (fun m => cleanURL m == url)) ∧
    find_links_in_text "see https://a.b/x.mp4 and https://a.b/x.mp4, end".toList
      = ["https://a.b/x.mp4".toList, "https://a.b/x.mp4".toList] := by
  refine ⟨?_, ?_, ?_, by decide⟩
  · intro files k
    constructor
    · exact foldl_scanFileUrls k files (fun _ => [])
    · rw [extract_links_from_folder, foldl_scanFileUrls k files (fun _ => [])]
      exact nodup_foldl_fdInsert _ [] List.nodup_nil
  · intro t; exact ⟨rfl, by simp [find_links_in_text]⟩
  · intro t url
    simp [find_links_in_text, List.count, List.countP_map]
    rfl

theorem phaseDirect_char (cancel : Nat → Bool) (fetch : Str → Bool)
    (hc : ∀ i, cancel i = false) :
    ∀ (urls : List Str) (st : BatchSt),
      (phaseDirect cancel fetch urls st).ok + (phaseDirect cancel fetch urls st).fail
          = st.ok + st.fail + urls.length ∧
      (phaseDirect cancel fetch urls st).trace
          = st.trace ++ urls.map BatchItem.direct := by
  intro urls
  induction urls with
  | nil => intro st; simp [phaseDirect]
  | cons url rest ih =>
    intro st
    by_cases hf : fetch url = true <;>
    · simp only [phaseDirect, hc, Bool.false_eq_true, if_false, hf]
      rcases ih _ with ⟨h1, h2⟩
      rw [h1, h2]
      constructor
      · simp; omega
      · simp

theorem phaseGdrive_char (cancel : Nat → Bool) (fetch : Str → Bool)
    (rewrite : Str → Option Str) (hc : ∀ i, cancel i = false) :
    ∀ (urls : List Str) (st : BatchSt),
      (phaseGdrive cancel fetch rewrite urls st).ok
          + (phaseGdrive cancel fetch rewrite urls st).fail
          = st.ok + st.fail + urls.length ∧
      (phaseGdrive cancel fetch rewrite urls st).trace
          = st.trace ++ urls.map BatchItem.gdrive := by
  intro urls
  induction urls with
  | nil => intro st; simp [phaseGdrive]
  | cons url rest ih =>
    intro st
    simp only [phaseGdrive, hc, Bool.false_eq_true, if_false]
    cases hrw : rewrite url with
    | none =>
      rcases ih _ with ⟨h1, h2⟩
      rw [h1, h2]
      constructor
      · simp; omega
      · simp
    | some d =>
      by_cases hf : fetch d = true <;>
      · simp only [hf]
        rcases ih _ with ⟨h1, h2⟩
        rw [h1, h2]
        constructor
        · simp; omega
        · simp

theorem phaseM3u8_char (cancel : Nat → Bool) (hc : ∀ i, cancel i = false) :
    ∀ (urls : List Str) (st : BatchSt),
      (phaseM3u8 cancel urls st).ok = st.ok ∧
      (phaseM3u8 cancel urls st).fail = st.fail ∧
      (phaseM3u8 cancel urls st).trace = st.trace ++ urls.map BatchItem.m3u8 := by
  intro urls
  induction urls with
  | nil => intro st; simp [phaseM3u8]
  | cons url rest ih =>
    intro st
    simp only [phaseM3u8, hc, Bool.false_eq_true, if_false]
    rcases ih _ with ⟨h1, h2, h3⟩
    rw [h1, h2, h3]
    refine ⟨rfl, rfl, by simp⟩

/-- C3: batch conservation with per-item failure isolation. Absent
cancellation, the final counters of one pipeline invocation satisfy
ok + fail = N, where N is the number of direct-download candidates
(direct plus unknown plus cloud-drive links); moreover a failing item is
absorbed inside its own iteration (fail incremented) and the pipeline
continues with the remaining items. -/
theorem c3_batch_conservation (cancel : Nat → Bool) (fetch : Str → Bool)
    (rewrite : Str → Option Str) (all_links : List Str)
    (hc : ∀ i, cancel i = false) :
    (handle_links_download_all cancel fetch rewrite all_links).ok
        + (handle_links_download_all cancel fetch rewrite all_links).fail
      = (categorize all_links Kind.direct).length
        + (categorize all_links Kind.unknown).length
        + (categorize all_links Kind.gdrive).length ∧
    (∀ (url : Str) (rest : List Str) (st : BatchSt),
      cancel st.reads = false → fetch url = false →
      phaseDirect cancel fetch (url :: rest) st
        = phaseDirect cancel fetch rest
            { st with fail := st.fail + 1, reads := st.reads + 1,
                      trace := st.trace ++ [BatchItem.direct url] }) := by
  constructor
  · simp only [handle_links_download_all]
    rcases phaseDirect_char cancel fetch hc
        (categorize all_links Kind.direct ++ categorize all_links Kind.unknown)
        ⟨0, 0, 0, []⟩ with ⟨hd, _⟩
    rcases phaseGdrive_char cancel fetch rewrite hc
        (categorize all_links Kind.gdrive) _ with ⟨hg, _⟩
    rcases phaseM3u8_char cancel hc (categorize all_links Kind.m3u8) _ with ⟨hm1, hm2, _⟩
    rw [hm1, hm2, hg, hd]
    simp
  · intro url rest st h1 h2
    simp [phaseDirect, h1, h2]

theorem c3_batch_conservation_witness :
    (handle_links_download_all (fun _ => false) (fun _ => false) (fun _ => none)
        ["https://host.example/a.mp4".toList,
         "https://drive.google.com/file/d/abc".toList]).ok
      + (handle_links_download_all (fun _ => false) (fun _ => false) (fun _ => none)
        ["https://host.example/a.mp4".toList,
         "https://drive.google.com/file/d/abc".toList]).fail = 2 := by
  have h := (c3_batch_conservation (fun _ => false) (fun _ => false) (fun _ => none)
    ["https://host.example/a.mp4".toList,
     "https://drive.google.com/file/d/abc".toList] (fun _ => rfl)).1
  exact h.trans (by decide)

def c4links : List Str :=
  ["https://drive.google.com/file/d/abc".toList, "https://host.example/a.mp4".toList]

/-- C4 counterexample: for a batch holding one cloud-drive link and one
direct link, the code processes the direct link first and the cloud-drive
link second, while the claimed order (cloud-drive-resolved fetches first)
puts the cloud-drive link first — the claim fails on this input. -/
theorem c4_counterexample :
    (handle_links_download_all (fun _ => false) (fun _ => true) some c4links).trace
      = [BatchItem.direct "https://host.example/a.mp4".toList,
         BatchItem.gdrive "https://drive.google.com/file/d/abc".toList] ∧
    specBatchOrder c4links
      = [BatchItem.gdrive "https://drive.google.com/file/d/abc".toList,
         BatchItem.direct "https://host.example/a.mp4".toList] ∧
    (handle_links_download_all (fun _ => false) (fun _ => true) some c4links).trace
      ≠ specBatchOrder c4links := by
  decide

/-- C4 amended: within a single batch invocation, absent cancellation,
items are processed in the fixed deterministic order direct/unknown
candidates first, then cloud-drive-resolved fetches, then streaming
manifests last — never reordered. -/
theorem c4_amended (cancel : Nat → Bool) (fetch : Str → Bool)
    (rewrite : Str → Option Str) (all_links : List Str)
    (hc : ∀ i, cancel i = false) :
    (handle_links_download_all cancel fetch rewrite all_links).trace
      = (categorize all_links Kind.direct
          ++ categorize all_links Kind.unknown).map BatchItem.direct
        ++ (categorize all_links Kind.gdrive).map BatchItem.gdrive
        ++ (categorize all_links Kind.m3u8).map BatchItem.m3u8 := by
  simp only [handle_links_download_all]
  rcases phaseDirect_char cancel fetch hc
      (categorize all_links Kind.direct ++ categorize all_links Kind.unknown)
      ⟨0, 0, 0, []⟩ with ⟨_, hd⟩
  rcases phaseGdrive_char cancel fetch rewrite hc
      (categorize all_links Kind.gdrive) _ with ⟨_, hg⟩
  rcases phaseM3u8_char cancel hc (categorize all_links Kind.m3u8) _ with ⟨_, _, hm⟩
  rw [hm, hg, hd]
  simp

theorem c4_amended_witness :
    (handle_links_download_all (fun _ => false) (fun _ => true) some c4links).trace
      = [BatchItem.direct "https://host.example/a.mp4".toList,
         BatchItem.gdrive "https://drive.google.com/file/d/abc".toList] := by
  have h := c4_amended (fun _ => false) (fun _ => true) some c4links (fun _ => rfl)
  exact h.trans (by decide)

